import Mathlib

/-!
Shallow embedding of the generative-model code in `models.py` of the
`cknowledge-covid-model` repository, together with theorems checking the
natural-language specification against it.

Conventions of the embedding:
* machine floats become real numbers (`ℝ`); a possibly non-finite float
  (NaN / inf, as tested by `np.isfinite`) is an `Option ℝ`, where `none`
  stands for a non-finite entry;
* numpy arrays become `List ℝ` (matrices become `List (List ℝ)`);
* the probabilistic-programming host (numpyro) is modelled by passing the
  drawn values of every sample site in explicitly and recording each
  site's name and value in a trace; a distribution draw that the model
  transforms deterministically (the exponentiated Gaussian random walk)
  is modelled from its underlying standard-normal innovations.
-/

set_option autoImplicit false
set_option maxRecDepth 8000

namespace Covid

noncomputable section

/-- A possibly non-finite floating value: `none` models NaN / inf,
`some v` a finite value `v`.  `np.isfinite` becomes `Option.isSome`. -/
abbrev FloatVal := Option ℝ

/-- A Gamma distribution represented by its shape and rate parameters,
as constructed by `numpyro.distributions.Gamma(shape, rate)`. -/
structure GammaD where
  shape : ℝ
  rate : ℝ

/-- Mean of a Gamma distribution: shape / rate. -/
def GammaD.mean (g : GammaD) : ℝ := g.shape / g.rate

/-- Variance of a Gamma distribution: shape / rate². -/
def GammaD.variance (g : GammaD) : ℝ := g.shape / g.rate ^ 2

/-- Embedding of `GammaMeanDispersion(mu, dispersion)` from `models.py`: Gamma
distribution with `shape = 1/dispersion`, `rate = shape/mu`. -/
def GammaMeanDispersion (mu dispersion : ℝ) : GammaD :=
  let shape := 1 / dispersion
  let rate := shape / mu
  ⟨shape, rate⟩

/-- Embedding of `GammaMeanVar(mu, var)` from `models.py`: Gamma distribution with
`shape = mu²/var`, `rate = shape/mu`. -/
def GammaMeanVar (mu var : ℝ) : GammaD :=
  let shape := mu ^ 2 / var
  let rate := shape / mu
  ⟨shape, rate⟩

/-- The distribution `scale · Beta(a, b)`, i.e. a Beta distribution pushed
forward through an affine transform, as built by `BinomialApprox` in
`models.py` via `TransformedDistribution(Beta(a, b), AffineTransform(0, n))`. -/
structure ScaledBeta where
  a : ℝ
  b : ℝ
  scale : ℝ

/-- Embedding of `BinomialApprox(n, p, conc)` from `models.py`: continuous approximation
to Binomial(n, p); when `conc` is `None` it defaults to `n`; the result is
the distribution of `n · Beta(conc·p, conc·(1-p))`. -/
def BinomialApprox (n p : ℝ) (conc : Option ℝ) : ScaledBeta :=
  let c := conc.getD n
  ⟨c * p, c * (1 - p), n⟩

/-- Inclusive partial sum `eps 0 + ... + eps t` of an innovation stream:
the value at index `t` of `np.cumsum` applied to the Gaussian noises. -/
def cumsumAt (eps : ℕ → ℝ) (t : ℕ) : ℝ := ∑ s in Finset.range (t + 1), eps s

/-- A sample of `ExponentialRandomWalk(loc, scale, drift, num_steps)` from
`models.py`, expressed through the standard-normal innovations `eps` of the
underlying `GaussianRandomWalk(scale, num_steps)` (whose sample at step `t`
is `scale · cumsum(eps)[t]`): the transformed distribution applies the
affine shift by `log_loc = log(loc) + drift * arange(num_steps)` followed
by exponentiation, so the sample at step `t` is
`exp(log(loc) + drift·t + scale·(eps 0 + ... + eps t))`. -/
def ERWsample (loc scale drift : ℝ) (numSteps : ℕ) (eps : ℕ → ℝ) : List ℝ :=
  (List.range numSteps).map fun t =>
    Real.exp (Real.log loc + drift * t + scale * cumsumAt eps t)

/-- Everything one call of `_observe_normal` in `models.py` produces:
the values of the deterministic site `"mean_" + name` (field `mean`),
the Normal noise scales, the validity mask (`None` when `obs` was not
supplied, mirroring the scalar `mask = True`), the modified observation
array actually conditioned on (after `np.where` and `+ reg`), and the
value returned by `numpyro.sample`. -/
structure ObserveOut where
  name : String
  mean : List ℝ
  scale : List ℝ
  mask : Option (List Bool)
  obsUsed : Option (List ℝ)
  y : List ℝ

/-- Embedding of `_observe_normal(name, latent, det_rate, det_noise_scale, obs)` from
`models.py`.  `draw` supplies the host's draw for the sample site when no
observation is given (the host draws with the distribution's shape, hence
`List.range mean.length`).  Steps mirror the source: add the regularizer
`0.5/det_rate` to the latent, build `mask = np.isfinite(obs)`, replace
non-finite entries by `0.0` and add `reg = 0.5` to all entries, compute
`mean = det_rate * latent` (broadcasting the scalar `det_rate`) and
`scale = det_noise_scale * mean + 1`, record the mean deterministically,
and sample/condition under the mask. -/
def observeNormal (name : String) (latent : List ℝ) (det_rate det_noise_scale : ℝ)
    (obs : Option (List FloatVal)) (draw : ℕ → ℝ) : ObserveOut :=
  let reg : ℝ := 1/2
  let latentR := latent.map fun l => l + reg / det_rate
  let mask := obs.map fun o => o.map Option.isSome
  let obsUsed := obs.map fun o => o.map fun e => e.getD 0 + reg
  let mean := latentR.map fun l => det_rate * l
  let scale := mean.map fun m => det_noise_scale * m + 1
  let y := match obsUsed with
    | some v => v
    | none => (List.range mean.length).map draw
  ⟨name, mean, scale, mask, obsUsed, y⟩

/-- Embedding of `observe` from `models.py`: the entry point dispatches to
`_observe_normal` (the `_observe_binom_approx` line is commented out). -/
def observe := observeNormal

/-- Trace entries registered with the host by one `observe` call: the
deterministic site `"mean_" + name` and the sample site `name`. -/
def obsTrace (o : ObserveOut) : List (String × List ℝ) :=
  [("mean_" ++ o.name, o.mean), (o.name, o.y)]

/-- Log-likelihood accumulated by the host under `numpyro.handlers.mask`:
an index contributes its log-density `lp mean scale value` exactly when the
mask is true there, and contributes `0` when masked out. -/
def maskedScore (lp : ℝ → ℝ → ℝ → ℝ) :
    List Bool → List ℝ → List ℝ → List ℝ → ℝ
  | b :: ms, m :: mus, s :: ss, v :: vs =>
      (if b then lp m s v else 0) + maskedScore lp ms mus ss vs
  | _, _, _, _ => 0

/-- Likelihood contribution of one `observe` call: when an observation
array was supplied, the masked score of the conditioned values; when
sampling (no observation), nothing is scored against data. -/
def ObserveOut.score (o : ObserveOut) (lp : ℝ → ℝ → ℝ → ℝ) : ℝ :=
  match o.mask, o.obsUsed with
  | some msk, some ov => maskedScore lp msk o.mean o.scale ov
  | _, _ => 0

/-- Reference score that mentions only the finite entries of the raw
observation array: a finite entry `some v` contributes `lp mean scale
(v + 0.5)`, a non-finite entry contributes nothing at all. -/
def finiteScore (lp : ℝ → ℝ → ℝ → ℝ) :
    List ℝ → List ℝ → List FloatVal → ℝ
  | m :: mus, s :: ss, some v :: os => lp m s (v + 1/2) + finiteScore lp mus ss os
  | _ :: mus, _ :: ss, none :: os => finiteScore lp mus ss os
  | _, _, _ => 0

/-- Everything one call of `_observe_binom_approx` in `models.py`
produces: the mask, the concentration vector after the
`np.minimum(det_conc, latent)` cap, the `BinomialApprox` distributions,
and the value returned by `numpyro.sample`. -/
structure ObserveBinomOut where
  name : String
  mask : Option (List Bool)
  conc : List ℝ
  d : List ScaledBeta
  y : List ℝ

/-- Embedding of `_observe_binom_approx(name, latent, det_rate, det_conc, obs)` from
`models.py`.  Mirrors the source: `latent` is reassigned to
`latent + reg/det_rate` with `reg = 0.5`; non-finite observations are
replaced by `0.5 * latent` (the regularized latent) and `reg` is added;
the concentration is capped by `np.minimum(det_conc, latent)` (with
`latent` the regularized value at that program point); the distribution is
`BinomialApprox(latent + reg/det_rate, det_rate, det_conc)`. -/
def observeBinomApprox (name : String) (latent : List ℝ) (det_rate det_conc : ℝ)
    (obs : Option (List FloatVal)) (draw : ℕ → ℝ) : ObserveBinomOut :=
  let reg : ℝ := 1/2
  let latentR := latent.map fun l => l + reg / det_rate
  let mask := obs.map fun o => o.map Option.isSome
  let obsUsed := obs.map fun o =>
    (o.zip latentR).map fun ev => ev.1.getD (0.5 * ev.2) + reg
  let conc := latentR.map fun l => min det_conc l
  let d := (latentR.zip conc).map fun lc =>
    BinomialApprox (lc.1 + reg / det_rate) det_rate (some lc.2)
  let y := match obsUsed with
    | some v => v
    | none => (List.range latentR.length).map draw
  ⟨name, mask, conc, d, y⟩

/-- Modelled from the spec: the external ODE compartment component
(`compartment.py`, imported by `models.py` but not part of the given
sources).  Per the spec it exposes `seed(population, initial_infectious,
initial_exposed) -> InitialState` and `run(num_steps, initial_state,
(rate_params...)) -> StateTrajectory`, where the trajectory includes the
initial state as its first row.  The per-step integration is a black box,
abstracted here as `step state beta_t sigma gamma`. -/
structure SEIRExt where
  seed : ℝ → ℝ → ℝ → List ℝ
  step : List ℝ → ℝ → ℝ → ℝ → List ℝ

/-- Rows of the trajectory after the initial state: `n` further steps of
the black-box integrator, step `t` driven by the `t`-th transmission
rate. -/
def runAux (ext : SEIRExt) (sigma gamma : ℝ) : List ℝ → List ℝ → ℕ → List (List ℝ)
  | _, _, 0 => []
  | x, betas, n + 1 =>
      let x1 := ext.step x (betas.headD 0) sigma gamma
      x1 :: runAux ext sigma gamma x1 betas.tail n

/-- Modelled from the spec: `SEIRModel.run(T, x0, (beta, sigma, gamma))`
of the external compartment component returns a length-`T` trajectory
whose first row is the initial state `x0` (callers drop that duplicated
row). -/
def SEIRrun (ext : SEIRExt) (T : ℕ) (x0 : List ℝ) (beta : List ℝ)
    (sigma gamma : ℝ) : List (List ℝ) :=
  x0 :: runAux ext sigma gamma x0 beta (T - 1)

/-- The parameter tuple threaded into `SEIR_dynamics` in `models.py`. -/
structure SEIRParams where
  beta0 : ℝ
  sigma : ℝ
  gamma : ℝ
  rw_scale : ℝ
  drift : ℝ
  det_rate : ℝ
  det_noise_scale : ℝ
  hosp_rate : ℝ
  hosp_noise_scale : ℝ

/-- Values recorded at a sample or deterministic site of the trace. -/
inductive TraceVal where
  | r : ℝ → TraceVal
  | v : List ℝ → TraceVal
  | m : List (List ℝ) → TraceVal
  | t3 : List (List (List ℝ)) → TraceVal

/-- Return value and trace of one `SEIR_dynamics` call in `models.py`. -/
structure DynOut where
  beta : List ℝ
  x : List (List ℝ)
  y : List ℝ
  z : List ℝ
  trace : List (String × TraceVal)

/-- Embedding of `SEIR_dynamics(T, params, x0, obs, hosp, use_hosp, suffix)` from
`models.py`: sample the transmission-rate walk
`beta ~ ExponentialRandomWalk(loc=beta0, scale=rw_scale, drift=drift,
num_steps=T-1)` (its innovations supplied by `eps`), run the external
compartment model for `T` steps and drop the duplicated first row, record
the trajectory at site `"x" + suffix`, observe the cumulative-case column
`x[:,4]` at site `"y" + suffix`, and, when the hospitalization sub-model
is enabled, observe it again with the hospitalization rate at site
`"z" + suffix`; otherwise `z = np.zeros_like(y)`. -/
def SEIR_dynamics (ext : SEIRExt) (T : ℕ) (p : SEIRParams) (x0 : List ℝ)
    (eps : ℕ → ℝ) (ydraw zdraw : ℕ → ℝ) (obs hosp : Option (List FloatVal))
    (use_hosp : Bool) (suffix : String) : DynOut :=
  let beta := ERWsample p.beta0 p.rw_scale p.drift (T - 1) eps
  let x := (SEIRrun ext T x0 beta p.sigma p.gamma).tail
  let latent := x.map fun row => row.getD 4 0
  let yo := observe ("y" ++ suffix) latent p.det_rate p.det_noise_scale obs ydraw
  let zo := observe ("z" ++ suffix) latent p.hosp_rate p.hosp_noise_scale hosp zdraw
  let y := yo.y
  let z := if use_hosp then zo.y else List.replicate y.length 0
  let tr := [("beta" ++ suffix, TraceVal.v beta), ("x" ++ suffix, TraceVal.m x)]
    ++ (obsTrace yo).map (fun e => (e.1, TraceVal.v e.2))
    ++ (if use_hosp then (obsTrace zo).map (fun e => (e.1, TraceVal.v e.2)) else [])
  ⟨beta, x, y, z, tr⟩

/-- The keyword arguments of `SEIR_stochastic` in `models.py`.  Arguments
that only parametrize prior distributions (whose draws the host supplies)
are carried for signature fidelity. -/
structure StochArgs where
  T : ℕ
  N : ℝ
  T_future : ℕ
  E_duration_est : ℝ
  I_duration_est : ℝ
  R0_est : ℝ
  beta_shape : ℝ
  sigma_shape : ℝ
  gamma_shape : ℝ
  det_rate_est : ℝ
  det_rate_conc : ℝ
  det_noise_scale : ℝ
  rw_scale : ℝ
  drift_scale : Option ℝ
  obs : Option (List FloatVal)
  use_hosp : Bool
  hosp_rate_est : ℝ
  hosp_rate_conc : ℝ
  hosp_noise_scale : ℝ
  hosp : Option (List FloatVal)

/-- The host's draws for every sample site of `SEIR_stochastic`:
scalar sites, the innovations of the two transmission-rate walks, and the
draw streams of the observation sites when no data is supplied. -/
structure StochDraws where
  I0 : ℝ
  E0 : ℝ
  sigma : ℝ
  gamma : ℝ
  beta0 : ℝ
  det_rate : ℝ
  hospFrac : ℝ
  drift : ℝ
  eps : ℕ → ℝ
  epsF : ℕ → ℝ
  y0draw : ℕ → ℝ
  z0draw : ℕ → ℝ
  ydraw : ℕ → ℝ
  zdraw : ℕ → ℝ
  ydrawF : ℕ → ℝ
  zdrawF : ℕ → ℝ

/-- Return value and trace of `SEIR_stochastic` in `models.py`. -/
structure StochOut where
  beta : List ℝ
  x : List (List ℝ)
  y : List ℝ
  z : List ℝ
  det_rate : ℝ
  hosp_rate : ℝ
  trace : List (String × TraceVal)

/-- Embedding of `SEIR_stochastic` from `models.py`.  Mirrors the source: draw the
scalar parameters; `hosp_rate = det_rate * hosp_frac` when the
hospitalization sub-model is enabled, else `0`; `drift` is the drawn
value when `drift_scale` is given, else `0`; seed the initial state;
split supplied observations into time-0 value and remainder; observe the
time-0 state; run `SEIR_dynamics` for the historical segment; stitch
`x0`, `y0`, `z0` in front; when `T_future > 0`, run `SEIR_dynamics` again
for `T_future + 1` steps from the last state and last transmission rate
under the `"_future"` suffix and append its results (the returned `beta`
is not extended). -/
def SEIR_stochastic (ext : SEIRExt) (a : StochArgs) (dr : StochDraws) : StochOut :=
  let det_rate := dr.det_rate
  let hosp_rate := if a.use_hosp then det_rate * dr.hospFrac else 0
  let drift := match a.drift_scale with
    | some _ => dr.drift
    | none => 0
  let x0 := ext.seed a.N dr.I0 dr.E0
  let obs0 : Option (List FloatVal) := a.obs.map fun o => [o.headD none]
  let obsR : Option (List FloatVal) := a.obs.map List.tail
  let hosp0 : Option (List FloatVal) :=
    if a.use_hosp then a.hosp.map fun o => [o.headD none] else none
  let hospR : Option (List FloatVal) :=
    if a.use_hosp then a.hosp.map List.tail else a.hosp
  let yo0 := observe "y0" [x0.getD 4 0] det_rate a.det_noise_scale obs0 dr.y0draw
  let y0 := yo0.y.headD 0
  let zo0 := observe "z0" [x0.getD 4 0] hosp_rate a.hosp_noise_scale hosp0 dr.z0draw
  let z0 : ℝ := if a.use_hosp then zo0.y.headD 0 else 0
  let p : SEIRParams :=
    ⟨dr.beta0, dr.sigma, dr.gamma, a.rw_scale, drift, det_rate,
     a.det_noise_scale, hosp_rate, a.hosp_noise_scale⟩
  let dyn := SEIR_dynamics ext a.T p x0 dr.eps dr.ydraw dr.zdraw obsR hospR a.use_hosp ""
  let beta := dyn.beta
  let x := x0 :: dyn.x
  let y := y0 :: dyn.y
  let z := z0 :: dyn.z
  let baseTrace : List (String × TraceVal) :=
    [("I0", TraceVal.r dr.I0), ("E0", TraceVal.r dr.E0),
     ("sigma", TraceVal.r dr.sigma), ("gamma", TraceVal.r dr.gamma),
     ("beta0", TraceVal.r dr.beta0), ("det_rate", TraceVal.r det_rate)]
    ++ (if a.use_hosp then [("hosp_rate", TraceVal.r dr.hospFrac)] else [])
    ++ (match a.drift_scale with
        | some _ => [("drift", TraceVal.r dr.drift)]
        | none => [])
    ++ [("x0", TraceVal.v x0)]
    ++ (obsTrace yo0).map (fun e => (e.1, TraceVal.v e.2))
    ++ (if a.use_hosp then (obsTrace zo0).map (fun e => (e.1, TraceVal.v e.2)) else [])
    ++ dyn.trace
  if 0 < a.T_future then
    let pF : SEIRParams :=
      ⟨beta.getLastD 0, dr.sigma, dr.gamma, a.rw_scale, drift, det_rate,
       a.det_noise_scale, hosp_rate, a.hosp_noise_scale⟩
    let dynF := SEIR_dynamics ext (a.T_future + 1) pF (x.getLastD []) dr.epsF
      dr.ydrawF dr.zdrawF none none a.use_hosp "_future"
    ⟨beta, x ++ dynF.x, y ++ dynF.y, z ++ dynF.z, det_rate, hosp_rate,
     baseTrace ++ dynF.trace⟩
  else
    ⟨beta, x, y, z, det_rate, hosp_rate, baseTrace⟩

/-- Dot product `np.dot(row, theta)` of a covariate row with a
coefficient vector. -/
def dotL (row theta : List ℝ) : ℝ := (List.zipWith (fun a b => a * b) row theta).sum

/-- Logistic sigmoid `jax.scipy.special.expit`. -/
def expit (x : ℝ) : ℝ := 1 / (1 + Real.exp (-x))

/-- Log-odds `jax.scipy.special.logit`. -/
def logit (p : ℝ) : ℝ := Real.log (p / (1 - p))

/-- One region's prior mean on the natural scale for R0 and the duration
parameters in `SEIR_hierarchical`:
`np.exp(np.log(est) + bias + np.dot(X, theta))` evaluated at that
region's covariate row. -/
def regionLinMean (est bias : ℝ) (row theta : List ℝ) : ℝ :=
  Real.exp (Real.log est + bias + dotL row theta)

/-- One region's prior detection-rate mean in `SEIR_hierarchical`:
`expit(logit(est) + bias + np.dot(X, theta))` evaluated at that region's
covariate row. -/
def regionExpitMean (est bias : ℝ) (row theta : List ℝ) : ℝ :=
  expit (logit est + bias + dotL row theta)

/-- Vector of per-region means `np.exp(np.log(est) + bias + np.dot(X, theta))`. -/
def linMean (est bias : ℝ) (X : List (List ℝ)) (theta : List ℝ) : List ℝ :=
  X.map fun row => regionLinMean est bias row theta

/-- Vector of per-region means `expit(logit(est) + bias + np.dot(X, theta))`. -/
def expitMean (est bias : ℝ) (X : List (List ℝ)) (theta : List ℝ) : List ℝ :=
  X.map fun row => regionExpitMean est bias row theta

/-- A Beta distribution with its two concentration parameters, as
constructed by `numpyro.distributions.Beta(a, b)`. -/
structure BetaD where
  a : ℝ
  b : ℝ

/-- A `numpyro.sample(name, dist)` call whose value the host draws: the
model hands the host the distribution object (here per-region) and
receives the drawn vector. -/
def sampleVec {D : Type} (_name : String) (_d : D) (draw : List ℝ) : List ℝ :=
  draw

/-- The parameter tuple threaded into `SEIR_dynamics_hierarchical` in
`models.py`; the first four components are per-region vectors. -/
structure HierParams where
  beta0 : List ℝ
  sigma : List ℝ
  gamma : List ℝ
  det_rate : List ℝ
  det_conc : ℝ
  rw_scale : ℝ
  drift : ℝ

/-- Return value and trace of one `SEIR_dynamics_hierarchical` call. -/
structure HierDynOut where
  beta : List (List ℝ)
  x : List (List (List ℝ))
  y : List (List ℝ)
  trace : List (String × TraceVal)

/-- The 2-D `observe` call of the hierarchical model: `_observe_normal`
applied to a `(num_places, T)` latent array with the per-region detection
rates broadcast as `det_rate[:, None]`.  Since every array operation in
`_observe_normal` is elementwise with the detection rate constant along
each row, the call is modelled as one `observe` per region row. -/
def observe2 (name : String) (latent : List (List ℝ)) (det_rate : List ℝ)
    (det_noise_scale : ℝ) (obs : Option (List (List FloatVal)))
    (draw : ℕ → ℕ → ℝ) : List ObserveOut :=
  (List.range latent.length).map fun r =>
    observe name (latent.getD r []) (det_rate.getD r 0) det_noise_scale
      (obs.map fun o => o.getD r []) (draw r)

/-- Embedding of `SEIR_dynamics_hierarchical(T, params, x0, obs, suffix)` from
`models.py`: inside a `num_places` plate sample per-region transmission
walks `ExponentialRandomWalk(loc=beta0[:,None], scale=rw_scale,
drift=drift, num_steps=T-1)`, run the compartment model per region via
`jax.vmap`, drop the duplicated first time step, record the trajectory at
site `"x" + suffix`, and observe the cumulative-case slice `x[:,:,4]`. -/
def SEIR_dynamics_hierarchical (ext : SEIRExt) (T : ℕ) (p : HierParams)
    (x0 : List (List ℝ)) (eps : ℕ → ℕ → ℝ) (ydraw : ℕ → ℕ → ℝ)
    (obs : Option (List (List FloatVal))) (suffix : String) : HierDynOut :=
  let beta := (List.range p.beta0.length).map fun r =>
    ERWsample (p.beta0.getD r 0) p.rw_scale p.drift (T - 1) (eps r)
  let x := (List.range x0.length).map fun r =>
    (SEIRrun ext T (x0.getD r []) (beta.getD r []) (p.sigma.getD r 0)
      (p.gamma.getD r 0)).tail
  let latent := x.map fun traj => traj.map fun row => row.getD 4 0
  let yo := observe2 ("y" ++ suffix) latent p.det_rate p.det_conc obs ydraw
  let y := yo.map ObserveOut.y
  let tr : List (String × TraceVal) :=
    [("beta" ++ suffix, TraceVal.m beta), ("x" ++ suffix, TraceVal.t3 x),
     ("mean_" ++ ("y" ++ suffix), TraceVal.m (yo.map ObserveOut.mean)),
     ("y" ++ suffix, TraceVal.m y)]
  ⟨beta, x, y, tr⟩

/-- The keyword arguments of `SEIR_hierarchical` in `models.py`;
`place_covariates` is the covariate matrix `X` (its `.values`). -/
structure HierArgs where
  num_places : ℕ
  T : ℕ
  N : ℝ
  T_future : ℕ
  E_duration_est : ℝ
  I_duration_est : ℝ
  R0_est : ℝ
  det_rate_est : ℝ
  det_rate_conc : ℝ
  rw_scale : ℝ
  det_scale : ℝ
  place_covariates : List (List ℝ)
  drift_scale : Option ℝ
  obs : Option (List (List FloatVal))

/-- The host's draws for every sample site of `SEIR_hierarchical`. -/
structure HierDraws where
  bias_R0 : ℝ
  bias_E_duration : ℝ
  bias_I_duration : ℝ
  bias_det_rate : ℝ
  theta_R0 : List ℝ
  theta_E_duration : List ℝ
  theta_I_duration : List ℝ
  theta_det_rate : List ℝ
  R0 : List ℝ
  E_duration : List ℝ
  I_duration : List ℝ
  det_rate : List ℝ
  I0 : List ℝ
  E0 : List ℝ
  eps : ℕ → ℕ → ℝ
  epsF : ℕ → ℕ → ℝ
  y0draw : ℕ → ℝ
  ydraw : ℕ → ℕ → ℝ
  ydrawF : ℕ → ℕ → ℝ

/-- Return value and trace of `SEIR_hierarchical` in `models.py`. -/
structure HierOut where
  beta : List (List ℝ)
  x : List (List (List ℝ))
  y : List (List ℝ)
  det_rate : List ℝ
  trace : List (String × TraceVal)

/-- Embedding of `SEIR_hierarchical` from `models.py`.  Mirrors the source: sample the
four bias scalars and coefficient vectors; compute per-region prior means
`R0_mean`, `E_duration_mean`, `I_duration_mean` by exponentiating
`log(est) + bias + X·theta` and `det_rate_mean` through
`expit(logit(est) + bias + X·theta)`; those means parametrize the
`GammaMeanVar` / Beta priors whose draws the host supplies; derive
`sigma = 1/E_duration`, `gamma = 1/I_duration`, `beta0 = R0*gamma`; seed
per-region initial states; observe the time-0 states; run the dynamics
with `drift = 0.` (the `drift_scale` argument is never read); and, when
`T_future > 0`, run the forecast segment from the last transmission rates
and states under the `"_future"` suffix (the returned `beta` is not
extended). -/
def SEIR_hierarchical (ext : SEIRExt) (a : HierArgs) (dr : HierDraws) : HierOut :=
  let X := a.place_covariates
  let R0_mean := linMean a.R0_est dr.bias_R0 X dr.theta_R0
  let E_duration_mean := linMean a.E_duration_est dr.bias_E_duration X dr.theta_E_duration
  let I_duration_mean := linMean a.I_duration_est dr.bias_I_duration X dr.theta_I_duration
  let det_rate_mean := expitMean a.det_rate_est dr.bias_det_rate X dr.theta_det_rate
  let R0 := sampleVec "R0" (R0_mean.map fun m => GammaMeanVar m (1/10)) dr.R0
  let E_duration := sampleVec "E_duration"
    (E_duration_mean.map fun m => GammaMeanVar m (1/20)) dr.E_duration
  let I_duration := sampleVec "I_duration"
    (I_duration_mean.map fun m => GammaMeanVar m (1/20)) dr.I_duration
  let det_rate := sampleVec "det_rate"
    (det_rate_mean.map fun m => BetaD.mk (m * a.det_rate_conc) ((1 - m) * a.det_rate_conc))
    dr.det_rate
  let sigma := E_duration.map fun e => 1 / e
  let gamma := I_duration.map fun i => 1 / i
  let beta0 := List.zipWith (fun r g => r * g) R0 gamma
  let x0 := (List.range a.num_places).map fun r =>
    ext.seed a.N (dr.I0.getD r 0) (dr.E0.getD r 0)
  let obs0 : Option (List FloatVal) := a.obs.map fun o => o.map fun row => row.headD none
  let obsR : Option (List (List FloatVal)) := a.obs.map fun o => o.map List.tail
  let yo0 := (List.range a.num_places).map fun r =>
    observe "y0" [(x0.getD r []).getD 4 0] (det_rate.getD r 0) a.det_scale
      (obs0.map fun o => [o.getD r none]) (fun _ => dr.y0draw r)
  let y0 := yo0.map fun o => o.y.headD 0
  let drift : ℝ := 0
  let p : HierParams := ⟨beta0, sigma, gamma, det_rate, a.det_scale, a.rw_scale, drift⟩
  let dyn := SEIR_dynamics_hierarchical ext a.T p x0 dr.eps dr.ydraw obsR ""
  let beta := dyn.beta
  let x := List.zipWith (fun x0r xr => x0r :: xr) x0 dyn.x
  let y := List.zipWith (fun y0r yr => y0r :: yr) y0 dyn.y
  let baseTrace : List (String × TraceVal) :=
    [("bias_R0", TraceVal.r dr.bias_R0), ("bias_E_duration", TraceVal.r dr.bias_E_duration),
     ("bias_I_duration", TraceVal.r dr.bias_I_duration),
     ("bias_det_rate", TraceVal.r dr.bias_det_rate),
     ("theta_R0", TraceVal.v dr.theta_R0), ("theta_E_duration", TraceVal.v dr.theta_E_duration),
     ("theta_I_duration", TraceVal.v dr.theta_I_duration),
     ("theta_det_rate", TraceVal.v dr.theta_det_rate),
     ("R0", TraceVal.v dr.R0), ("E_duration", TraceVal.v dr.E_duration),
     ("I_duration", TraceVal.v dr.I_duration), ("det_rate", TraceVal.v det_rate),
     ("I0", TraceVal.v dr.I0), ("E0", TraceVal.v dr.E0),
     ("x0", TraceVal.m x0),
     ("mean_y0", TraceVal.m (yo0.map ObserveOut.mean)),
     ("y0", TraceVal.v y0)]
    ++ dyn.trace
  if 0 < a.T_future then
    let pF : HierParams :=
      ⟨beta.map fun b => b.getLastD 0, sigma, gamma, det_rate, a.det_scale,
       a.rw_scale, drift⟩
    let dynF := SEIR_dynamics_hierarchical ext (a.T_future + 1) pF
      (x.map fun xr => xr.getLastD []) dr.epsF dr.ydrawF none "_future"
    ⟨beta, List.zipWith (fun u v => u ++ v) x dynF.x,
     List.zipWith (fun u v => u ++ v) y dynF.y, det_rate, baseTrace ++ dynF.trace⟩
  else
    ⟨beta, x, y, det_rate, baseTrace⟩

/-!
Theorems checking the claims.
-/

/-- C5: `GammaMeanDispersion(mean, dispersion)` constructs a Gamma
distribution with shape `1/dispersion` and rate `shape/mean`, whose mean
`shape/rate` equals `mean` and whose variance `shape/rate²` equals
`mean² · dispersion`, for every `mean > 0` and `dispersion > 0`. -/
theorem gammaMeanDispersion_moments (mu d : ℝ) (hmu : 0 < mu) (hd : 0 < d) :
    (GammaMeanDispersion mu d).shape = 1 / d
    ∧ (GammaMeanDispersion mu d).rate = (1 / d) / mu
    ∧ (GammaMeanDispersion mu d).mean = mu
    ∧ (GammaMeanDispersion mu d).variance = mu ^ 2 * d := by
  have hd' : d ≠ 0 := ne_of_gt hd
  have hmu' : mu ≠ 0 := ne_of_gt hmu
  refine ⟨rfl, rfl, ?_, ?_⟩
  · simp only [GammaMeanDispersion, GammaD.mean]
    field_simp
  · simp only [GammaMeanDispersion, GammaD.variance]
    field_simp
    ring

/-- Witness for `gammaMeanDispersion_moments` at mean 2, dispersion 3. -/
theorem gammaMeanDispersion_moments_witness :
    (GammaMeanDispersion 2 3).mean = 2
    ∧ (GammaMeanDispersion 2 3).variance = 2 ^ 2 * 3 :=
  ⟨(gammaMeanDispersion_moments 2 3 (by norm_num) (by norm_num)).2.2.1,
   (gammaMeanDispersion_moments 2 3 (by norm_num) (by norm_num)).2.2.2⟩

/-- C4: with `scale = 0` and `drift = 0`, every sample of
`ExponentialRandomWalk(loc, 0, 0, k)` is the constant sequence
`[loc] * k` (whatever the Gaussian innovations are), and its log-domain
values equal `log loc` at every step. -/
theorem erw_zero_noise_constant (loc : ℝ) (k : ℕ) (eps : ℕ → ℝ) (hloc : 0 < loc) :
    ERWsample loc 0 0 k eps = List.replicate k loc
    ∧ (ERWsample loc 0 0 k eps).map Real.log = List.replicate k (Real.log loc) := by
  have h1 : ERWsample loc 0 0 k eps = List.replicate k loc := by
    unfold ERWsample
    simp [Real.exp_log hloc]
  exact ⟨h1, by rw [h1, List.map_replicate]⟩

/-- Witness for `erw_zero_noise_constant` at `loc = 2`, 3 steps. -/
theorem erw_zero_noise_constant_witness :
    ERWsample 2 0 0 3 (fun n => (n : ℝ)) = List.replicate 3 2 :=
  (erw_zero_noise_constant 2 3 (fun n => (n : ℝ)) (by norm_num)).1

/-- C1: the `observe` entry point (dispatching to `_observe_normal`)
records under `"mean_" + name` a deterministic value equal elementwise to
`det_rate * (latent + 0.5/det_rate)`, for every latent array, every
`det_rate > 0`, every noise scale and every observation argument (in
particular independently of which entries are masked out). -/
theorem observe_mean_site (name : String) (latent : List ℝ) (r s : ℝ)
    (obs : Option (List FloatVal)) (draw : ℕ → ℝ) (hr : 0 < r) :
    (observe name latent r s obs draw).mean
        = latent.map (fun l => r * (l + (1/2) / r))
    ∧ ("mean_" ++ name, latent.map fun l => r * (l + (1/2) / r))
        ∈ obsTrace (observe name latent r s obs draw) := by
  have hm : (observe name latent r s obs draw).mean
      = latent.map fun l => r * (l + (1/2) / r) := by
    simp [observe, observeNormal, List.map_map, Function.comp]
  refine ⟨hm, ?_⟩
  have hn : (observe name latent r s obs draw).name = name := rfl
  simp [obsTrace, hn, hm]

/-- Witness for `observe_mean_site`: latent `[3]`, detection rate 2,
observation masked out at its only index. -/
theorem observe_mean_site_witness :
    (observe "cases" [3] 2 1 (some [none]) (fun _ => 0)).mean
      = [3].map (fun l => 2 * (l + (1/2) / 2)) :=
  (observe_mean_site "cases" [3] 2 1 (some [none]) (fun _ => 0) (by norm_num)).1

/-- Score under the mask equals the score over the finite entries only:
the placeholder values substituted at non-finite indices never reach the
likelihood. -/
theorem maskedScore_eq_finiteScore (lp : ℝ → ℝ → ℝ → ℝ) (o : List FloatVal) :
    ∀ mus ss : List ℝ,
      maskedScore lp (o.map Option.isSome) mus ss (o.map fun e => e.getD 0 + 1/2)
        = finiteScore lp mus ss o := by
  induction o with
  | nil =>
      intro mus ss
      cases mus <;> cases ss <;>
        simp [maskedScore.eq_def, finiteScore.eq_def]
  | cons e os ih =>
      intro mus ss
      cases mus with
      | nil =>
          cases e <;> simp [maskedScore.eq_def, finiteScore.eq_def]
      | cons m mus =>
        cases ss with
        | nil =>
            cases e <;> simp [maskedScore.eq_def, finiteScore.eq_def]
        | cons s ss =>
          cases e with
          | none =>
              simp only [List.map_cons, Option.isSome_none, Option.getD_none,
                maskedScore, finiteScore, Bool.false_eq_true, if_false, zero_add]
              exact ih mus ss
          | some v =>
              simp only [List.map_cons, Option.isSome_some, Option.getD_some,
                maskedScore, finiteScore, if_true]
              rw [ih mus ss]

/-- C2: for every supplied observation array, `_observe_normal` builds a
validity mask equal elementwise to the finiteness test, replaces every
non-finite entry with the placeholder `0` and adds the regularizer `0.5`
to all entries, and the replaced values never contribute to the
likelihood: the masked score equals a sum over the finite entries only. -/
theorem observe_mask_placeholder_score (name : String) (latent : List ℝ) (r s : ℝ)
    (o : List FloatVal) (draw : ℕ → ℝ) (lp : ℝ → ℝ → ℝ → ℝ) :
    (observe name latent r s (some o) draw).mask = some (o.map Option.isSome)
    ∧ (observe name latent r s (some o) draw).obsUsed
        = some (o.map fun e => e.getD 0 + 1/2)
    ∧ (observe name latent r s (some o) draw).score lp
        = finiteScore lp (observe name latent r s (some o) draw).mean
            (observe name latent r s (some o) draw).scale o := by
  refine ⟨rfl, rfl, ?_⟩
  show maskedScore lp (o.map Option.isSome) _ _ (o.map fun e => e.getD 0 + 1/2)
      = _
  exact maskedScore_eq_finiteScore lp o _ _

/-- C8 counterexample: in `_observe_binom_approx` the concentration cap is
computed on the regularized latent, not the raw one.  At raw latent `0`,
`det_rate = 1`, `det_conc = 1/4`, the cap on the raw latent would give
`min(1/4, 0) = 0`, but the code produces `min(1/4, 0 + 0.5/1) = 1/4`. -/
theorem binomApprox_conc_raw_counterexample :
    (observeBinomApprox "y" [0] 1 (1/4) none (fun _ => 0)).conc = [(1/4 : ℝ)]
    ∧ (observeBinomApprox "y" [0] 1 (1/4) none (fun _ => 0)).conc
        ≠ [min ((1:ℝ)/4) 0] := by
  have h : (observeBinomApprox "y" [0] 1 (1/4) none (fun _ => 0)).conc
      = [(1/4 : ℝ)] := by
    show [min ((1:ℝ)/4) ((0:ℝ) + (1/2) / 1)] = [(1/4 : ℝ)]
    norm_num
  refine ⟨h, ?_⟩
  rw [h]
  have hmin : min ((1:ℝ)/4) 0 = 0 := by norm_num
  rw [hmin]
  intro hcontra
  have := List.head_eq_of_cons_eq hcontra
  norm_num at this

/-- C8 (amended): the concentration passed to `BinomialApprox` equals
`min(det_conc, latent + 0.5/det_rate)` elementwise — the cap is taken on
the regularized latent (after the `0.5/det_rate` addition), not on the
raw latent count. -/
theorem binomApprox_conc_regularized (name : String) (latent : List ℝ)
    (r dc : ℝ) (obs : Option (List FloatVal)) (draw : ℕ → ℝ) :
    (observeBinomApprox name latent r dc obs draw).conc
      = latent.map fun l => min dc (l + (1/2) / r) := by
  simp [observeBinomApprox, List.map_map, Function.comp]

/-- The integrator produces exactly `n` rows after the initial state. -/
theorem runAux_length (ext : SEIRExt) (sigma gamma : ℝ) :
    ∀ (n : ℕ) (x betas : List ℝ),
      (runAux ext sigma gamma x betas n).length = n := by
  intro n
  induction n with
  | zero => intro x betas; rfl
  | succ n ih => intro x betas; simp [runAux, ih]

/-- The modelled `SEIRModel.run` returns `(T - 1) + 1` rows (that is, `T` rows for
`T ≥ 1`), the first being the initial state. -/
theorem SEIRrun_length (ext : SEIRExt) (T : ℕ) (x0 beta : List ℝ) (sigma gamma : ℝ) :
    (SEIRrun ext T x0 beta sigma gamma).length = (T - 1) + 1 := by
  simp [SEIRrun, runAux_length]

/-- An `ExponentialRandomWalk(num_steps = n)` sample has `n` entries. -/
theorem ERWsample_length (loc scale drift : ℝ) (n : ℕ) (eps : ℕ → ℝ) :
    (ERWsample loc scale drift n eps).length = n := by
  simp [ERWsample]

/-- With no observation supplied, `observe` returns a draw of the
distribution's shape, i.e. of the latent's length. -/
theorem observe_y_length_none (name : String) (latent : List ℝ) (r s : ℝ)
    (draw : ℕ → ℝ) :
    (observe name latent r s none draw).y.length = latent.length := by
  simp [observe, observeNormal]

/-- With an observation supplied, `observe` returns the conditioned
values, of the observation's length. -/
theorem observe_y_length_some (name : String) (latent : List ℝ) (r s : ℝ)
    (o : List FloatVal) (draw : ℕ → ℝ) :
    (observe name latent r s (some o) draw).y.length = o.length := by
  simp [observe, observeNormal]

/-- Lemma: `SEIR_dynamics` returns the transmission-rate walk of `T - 1` steps. -/
theorem SEIR_dynamics_beta (ext : SEIRExt) (T : ℕ) (p : SEIRParams) (x0 : List ℝ)
    (eps ydraw zdraw : ℕ → ℝ) (obs hosp : Option (List FloatVal))
    (uh : Bool) (sfx : String) :
    (SEIR_dynamics ext T p x0 eps ydraw zdraw obs hosp uh sfx).beta
      = ERWsample p.beta0 p.rw_scale p.drift (T - 1) eps := rfl

/-- Lemma: `SEIR_dynamics` returns `T - 1` trajectory rows (the duplicated
initial row is dropped). -/
theorem SEIR_dynamics_x_length (ext : SEIRExt) (T : ℕ) (p : SEIRParams) (x0 : List ℝ)
    (eps ydraw zdraw : ℕ → ℝ) (obs hosp : Option (List FloatVal))
    (uh : Bool) (sfx : String) :
    (SEIR_dynamics ext T p x0 eps ydraw zdraw obs hosp uh sfx).x.length = T - 1 := by
  simp [SEIR_dynamics, SEIRrun, runAux_length]

/-- Length of the confirmed-case output of `SEIR_dynamics`: the length of
the supplied observation array, or `T - 1` when sampling. -/
theorem SEIR_dynamics_y_length (ext : SEIRExt) (T : ℕ) (p : SEIRParams) (x0 : List ℝ)
    (eps ydraw zdraw : ℕ → ℝ) (obs hosp : Option (List FloatVal))
    (uh : Bool) (sfx : String) :
    (SEIR_dynamics ext T p x0 eps ydraw zdraw obs hosp uh sfx).y.length
      = obs.elim (T - 1) List.length := by
  cases obs with
  | none => simp [SEIR_dynamics, observe, observeNormal, SEIRrun, runAux_length]
  | some o => simp [SEIR_dynamics, observe, observeNormal]

/-- With the hospitalization sub-model off, `SEIR_dynamics` returns
`z = np.zeros_like(y)`. -/
theorem SEIR_dynamics_z_nohosp (ext : SEIRExt) (T : ℕ) (p : SEIRParams) (x0 : List ℝ)
    (eps ydraw zdraw : ℕ → ℝ) (obs hosp : Option (List FloatVal)) (sfx : String) :
    (SEIR_dynamics ext T p x0 eps ydraw zdraw obs hosp false sfx).z
      = List.replicate
          (SEIR_dynamics ext T p x0 eps ydraw zdraw obs hosp false sfx).y.length 0 := by
  simp [SEIR_dynamics]

/-- C3: for every `T ≥ 2` and `T_future ≥ 0` (with observations, when
supplied, of length `T`), `SEIR_stochastic` returns a compartment
trajectory of exactly `T + T_future` rows — headed by the time-0 seed
row — and a confirmed-case sequence of length `T + T_future`; with
`T_future = 0` these lengths are `T`. -/
theorem seir_stochastic_lengths (ext : SEIRExt) (a : StochArgs) (dr : StochDraws)
    (hT : 2 ≤ a.T) (hobs : a.obs.elim True fun o => o.length = a.T) :
    (SEIR_stochastic ext a dr).x.length = a.T + a.T_future
    ∧ (SEIR_stochastic ext a dr).y.length = a.T + a.T_future
    ∧ (SEIR_stochastic ext a dr).x.head? = some (ext.seed a.N dr.I0 dr.E0) := by
  by_cases hf : 0 < a.T_future <;>
  cases hO : a.obs <;>
  (rw [hO] at hobs;
   simp only [Option.elim] at hobs ⊢;
   refine ⟨?_, ?_, ?_⟩ <;>
   simp [SEIR_stochastic, hO, hf, SEIR_dynamics_x_length, SEIR_dynamics_y_length,
     List.cons_append, List.length_tail, Option.elim] <;>
   omega)

/-- A concrete external compartment component used to evaluate the model
theorems at concrete inputs. -/
def extT : SEIRExt :=
  ⟨fun n i e => [n - i - e, e, i, 0, i + e],
   fun x b sg gm => x.map fun v => v + b + sg + gm⟩

/-- Concrete arguments: `T = 10`, `T_future = 2`, no observations, no
hospitalization sub-model, no drift prior. -/
def argsT : StochArgs :=
  ⟨10, 100000, 2, 4, 2, 3, 1, 5, 5, 3/10, 50, 3/20, 1/10, none, none, false,
   3/20, 30, 3/10, none⟩

/-- Concrete draws for every sample site of `SEIR_stochastic`. -/
def drawsT : StochDraws :=
  ⟨100, 50, 1/4, 1/2, 2, 3/10, 1/10, 0, fun _ => 0, fun _ => 0, fun _ => 0,
   fun _ => 0, fun _ => 0, fun _ => 0, fun _ => 0, fun _ => 0⟩

/-- Witness for `seir_stochastic_lengths`: at `T = 10`, `T_future = 2`
the trajectory and confirmed-case sequence have 12 entries. -/
theorem seir_stochastic_lengths_witness :
    (SEIR_stochastic extT argsT drawsT).x.length = 10 + 2
    ∧ (SEIR_stochastic extT argsT drawsT).y.length = 10 + 2 :=
  ⟨(seir_stochastic_lengths extT argsT drawsT (by decide) trivial).1,
   (seir_stochastic_lengths extT argsT drawsT (by decide) trivial).2.1⟩

/-- C9: whenever the hospitalization sub-model is off, `SEIR_stochastic`
returns hospitalization rate `0` and a hospitalization sequence that is
identically zero, of the same length as the confirmed-case sequence,
whatever the hospitalization arguments are. -/
theorem seir_stochastic_no_hosp (ext : SEIRExt) (a : StochArgs) (dr : StochDraws)
    (h : a.use_hosp = false) :
    (SEIR_stochastic ext a dr).hosp_rate = 0
    ∧ (SEIR_stochastic ext a dr).z
        = List.replicate (SEIR_stochastic ext a dr).y.length 0 := by
  constructor
  · by_cases hf : 0 < a.T_future <;> simp [SEIR_stochastic, h, hf]
  · rw [List.eq_replicate_iff]
    constructor
    · by_cases hf : 0 < a.T_future <;>
        simp [SEIR_stochastic, h, hf, SEIR_dynamics_z_nohosp]
    · intro e he
      by_cases hf : 0 < a.T_future <;>
        (simp [SEIR_stochastic, h, hf, SEIR_dynamics_z_nohosp, List.mem_append,
           List.mem_replicate] at he;
         tauto)

/-- Witness for `seir_stochastic_no_hosp` at the concrete fixture (whose
`use_hosp` is `false`). -/
theorem seir_stochastic_no_hosp_witness :
    (SEIR_stochastic extT argsT drawsT).hosp_rate = 0
    ∧ (SEIR_stochastic extT argsT drawsT).z
        = List.replicate (SEIR_stochastic extT argsT drawsT).y.length 0 :=
  seir_stochastic_no_hosp extT argsT drawsT rfl

/-- The transmission-rate sequence returned by `SEIR_stochastic` is the
historical walk of `T - 1` steps, whatever the forecast horizon is. -/
theorem stoch_beta (ext : SEIRExt) (a : StochArgs) (dr : StochDraws) :
    (SEIR_stochastic ext a dr).beta
      = ERWsample dr.beta0 a.rw_scale
          (match a.drift_scale with | some _ => dr.drift | none => 0)
          (a.T - 1) dr.eps := by
  by_cases hf : 0 < a.T_future <;> simp [SEIR_stochastic, SEIR_dynamics, hf]

/-- Lemma: `SEIR_dynamics` registers its transmission-rate walk at the sample
site `"beta" + suffix`. -/
theorem SEIR_dynamics_trace_beta (ext : SEIRExt) (T : ℕ) (p : SEIRParams)
    (x0 : List ℝ) (eps ydraw zdraw : ℕ → ℝ) (obs hosp : Option (List FloatVal))
    (uh : Bool) (sfx : String) :
    ("beta" ++ sfx, TraceVal.v (ERWsample p.beta0 p.rw_scale p.drift (T - 1) eps))
      ∈ (SEIR_dynamics ext T p x0 eps ydraw zdraw obs hosp uh sfx).trace := by
  simp [SEIR_dynamics]

/-- When forecasting, `SEIR_stochastic` records a `"beta_future"` sample
site in the trace. -/
theorem stoch_trace_beta_future (ext : SEIRExt) (a : StochArgs) (dr : StochDraws)
    (hf : 0 < a.T_future) :
    "beta_future" ∈ (SEIR_stochastic ext a dr).trace.map Prod.fst := by
  simp only [SEIR_stochastic, hf, if_true]
  rw [List.map_append]
  refine List.mem_append_right _ ?_
  exact List.mem_map_of_mem Prod.fst
    (SEIR_dynamics_trace_beta ext (a.T_future + 1) _ _ _ _ _ none none
      a.use_hosp "_future")

/-- The per-region transmission-rate sequences returned by
`SEIR_hierarchical` are the historical walks, driven with drift `0` and
`T - 1` steps per region, whatever the forecast horizon is. -/
theorem hier_beta (ext : SEIRExt) (a : HierArgs) (dr : HierDraws) :
    (SEIR_hierarchical ext a dr).beta
      = (List.range (List.zipWith (fun r g => r * g) dr.R0
            (dr.I_duration.map fun i => 1 / i)).length).map
          fun r => ERWsample ((List.zipWith (fun r g => r * g) dr.R0
              (dr.I_duration.map fun i => 1 / i)).getD r 0)
            a.rw_scale 0 (a.T - 1) (dr.eps r) := by
  by_cases hf : 0 < a.T_future <;>
    simp [SEIR_hierarchical, SEIR_dynamics_hierarchical, sampleVec, hf]

/-- Lemma: `SEIR_dynamics_hierarchical` registers its per-region
transmission-rate walks at the sample site `"beta" + suffix`. -/
theorem SEIR_dynamics_hier_trace_beta (ext : SEIRExt) (T : ℕ) (p : HierParams)
    (x0 : List (List ℝ)) (eps ydraw : ℕ → ℕ → ℝ)
    (obs : Option (List (List FloatVal))) (sfx : String) :
    ("beta" ++ sfx, TraceVal.m ((List.range p.beta0.length).map
        fun r => ERWsample (p.beta0.getD r 0) p.rw_scale p.drift (T - 1) (eps r)))
      ∈ (SEIR_dynamics_hierarchical ext T p x0 eps ydraw obs sfx).trace := by
  simp [SEIR_dynamics_hierarchical]

/-- When forecasting, `SEIR_hierarchical` records a `"beta_future"`
sample site in the trace. -/
theorem hier_trace_beta_future (ext : SEIRExt) (a : HierArgs) (dr : HierDraws)
    (hf : 0 < a.T_future) :
    "beta_future" ∈ (SEIR_hierarchical ext a dr).trace.map Prod.fst := by
  simp only [SEIR_hierarchical, hf, if_true]
  rw [List.map_append]
  refine List.mem_append_right _ ?_
  exact List.mem_map_of_mem Prod.fst
    (SEIR_dynamics_hier_trace_beta ext (a.T_future + 1) _ _ _ _ none "_future")

/-- C10: for every `T ≥ 2` and `T_future > 0` the transmission-rate
sequence returned by `SEIR_stochastic` has length `T - 1`, identical to
the `T_future = 0` case; the forecast-segment walk is recorded under the
`"beta_future"` sample site but not appended to the returned sequence;
likewise each per-region sequence returned by `SEIR_hierarchical` has
length `T - 1` and is not extended by the forecast. -/
theorem beta_not_extended (ext : SEIRExt) (a : StochArgs) (dr : StochDraws)
    (ha : HierArgs) (hdr : HierDraws) (hf : 0 < a.T_future)
    (hhf : 0 < ha.T_future) :
    (SEIR_stochastic ext a dr).beta.length = a.T - 1
    ∧ (SEIR_stochastic ext a dr).beta
        = (SEIR_stochastic ext {a with T_future := 0} dr).beta
    ∧ "beta_future" ∈ (SEIR_stochastic ext a dr).trace.map Prod.fst
    ∧ (∀ b ∈ (SEIR_hierarchical ext ha hdr).beta, b.length = ha.T - 1)
    ∧ (SEIR_hierarchical ext ha hdr).beta
        = (SEIR_hierarchical ext {ha with T_future := 0} hdr).beta
    ∧ "beta_future" ∈ (SEIR_hierarchical ext ha hdr).trace.map Prod.fst := by
  refine ⟨?_, ?_, stoch_trace_beta_future ext a dr hf, ?_, ?_,
    hier_trace_beta_future ext ha hdr hhf⟩
  · rw [stoch_beta]; exact ERWsample_length _ _ _ _ _
  · rw [stoch_beta, stoch_beta]
  · intro b hb
    rw [hier_beta] at hb
    obtain ⟨r, _, rfl⟩ := List.mem_map.mp hb
    exact ERWsample_length _ _ _ _ _
  · rw [hier_beta, hier_beta]

/-- Concrete hierarchical arguments: 2 regions, `T = 5`, `T_future = 1`,
one covariate, no observations. -/
def hargsT : HierArgs :=
  ⟨2, 5, 100000, 1, 9/2, 3, 9/2, 3/10, 50, 1/10, 1/5, [[1], [0]], none, none⟩

/-- Concrete draws for every sample site of `SEIR_hierarchical`. -/
def hdrawsT : HierDraws :=
  ⟨0, 0, 0, 0, [0], [0], [0], [0], [3, 3], [4, 4], [2, 2], [3/10, 3/10],
   [10, 10], [20, 20], fun _ _ => 0, fun _ _ => 0, fun _ => 0,
   fun _ _ => 0, fun _ _ => 0⟩

/-- Witness for `beta_not_extended`: at the concrete fixtures with
`T = 10` (single-region) and `T = 5` (hierarchical) and positive forecast
horizons, the returned walks have lengths 9 and 4. -/
theorem beta_not_extended_witness :
    (SEIR_stochastic extT argsT drawsT).beta.length = 10 - 1
    ∧ (∀ b ∈ (SEIR_hierarchical extT hargsT hdrawsT).beta, b.length = 5 - 1) :=
  ⟨(beta_not_extended extT argsT drawsT hargsT hdrawsT (by decide) (by decide)).1,
   (beta_not_extended extT argsT drawsT hargsT hdrawsT
      (by decide) (by decide)).2.2.2.1⟩

/-- C7: `SEIR_hierarchical` fixes the random-walk drift at `0` for both
the historical and the forecast segment: the `drift_scale` argument is
never read, so two invocations differing only in `drift_scale` produce
identical outputs given the same draws; explicitly, the returned
per-region walks are driven with drift `0`. -/
theorem hier_drift_scale_unused (ext : SEIRExt) (a : HierArgs) (dr : HierDraws)
    (s1 s2 : Option ℝ) :
    SEIR_hierarchical ext {a with drift_scale := s1} dr
      = SEIR_hierarchical ext {a with drift_scale := s2} dr
    ∧ (SEIR_hierarchical ext a dr).beta
        = (List.range (List.zipWith (fun r g => r * g) dr.R0
              (dr.I_duration.map fun i => 1 / i)).length).map
            fun r => ERWsample ((List.zipWith (fun r g => r * g) dr.R0
                (dr.I_duration.map fun i => 1 / i)).getD r 0)
              a.rw_scale 0 (a.T - 1) (dr.eps r) :=
  ⟨rfl, hier_beta ext a dr⟩

/-- Changing the `j`-th coefficient moves the dot product by
`row[j] * (c - theta[j])`. -/
theorem dotL_set (row theta : List ℝ) (j : ℕ) (c : ℝ)
    (hr : j < row.length) (ht : j < theta.length) :
    dotL row (theta.set j c)
      = dotL row theta + row.getD j 0 * (c - theta.getD j 0) := by
  induction row generalizing theta j with
  | nil => simp at hr
  | cons a as ih =>
    cases theta with
    | nil => simp at ht
    | cons b bs =>
      cases j with
      | zero =>
          simp only [List.set_cons_zero, List.getD_cons_zero, dotL,
            List.zipWith_cons_cons, List.sum_cons]
          ring
      | succ j =>
          simp only [List.set_cons_succ, List.getD_cons_succ, dotL,
            List.zipWith_cons_cons, List.sum_cons]
          have := ih bs j (by simpa using hr) (by simpa using ht)
          simp only [dotL] at this
          rw [this]
          ring

/-- The logistic sigmoid is strictly increasing. -/
theorem expit_lt_expit {x y : ℝ} (h : x < y) : expit x < expit y := by
  unfold expit
  have h1 : Real.exp (-y) < Real.exp (-x) := Real.exp_lt_exp.mpr (by linarith)
  have h2 : (0:ℝ) < 1 + Real.exp (-y) := by positivity
  exact one_div_lt_one_div_of_lt h2 (by linarith)

/-- The logistic sigmoid inverts the log-odds on `(0, 1)`. -/
theorem expit_logit {p : ℝ} (h0 : 0 < p) (h1 : p < 1) : expit (logit p) = p := by
  unfold expit logit
  have hp1 : (0:ℝ) < 1 - p := by linarith
  rw [Real.exp_neg, Real.exp_log (div_pos h0 hp1)]
  rw [inv_div]
  have hne : p ≠ 0 := ne_of_gt h0
  field_simp

/-- C6: in `SEIR_hierarchical` each region's prior mean for R0 and the
durations is `exp(log est + bias + X·theta)` (the `regionLinMean` used at
sites `R0`, `E_duration`, `I_duration`) and the detection-rate mean is
`expit(logit est + bias + X·theta)` (the `regionExpitMean` used at site
`det_rate`); both are strictly increasing in a coefficient `theta[j]`
whenever the region's covariate `row[j]` is positive, and both reduce
exactly to the base estimate when the bias and `X·theta` vanish. -/
theorem hier_prior_mean_props (estG estD bias : ℝ) (row theta : List ℝ)
    (j : ℕ) (c : ℝ) (hG : 0 < estG) (hD0 : 0 < estD) (hD1 : estD < 1)
    (hjr : j < row.length) (hjt : j < theta.length)
    (hrow : 0 < row.getD j 0) (hc : theta.getD j 0 < c) :
    regionLinMean estG bias row theta < regionLinMean estG bias row (theta.set j c)
    ∧ regionExpitMean estD bias row theta
        < regionExpitMean estD bias row (theta.set j c)
    ∧ (bias = 0 → dotL row theta = 0 →
        regionLinMean estG bias row theta = estG
        ∧ regionExpitMean estD bias row theta = estD) := by
  have hdot : dotL row (theta.set j c)
      = dotL row theta + row.getD j 0 * (c - theta.getD j 0) :=
    dotL_set row theta j c hjr hjt
  have hlt : dotL row theta < dotL row (theta.set j c) := by
    rw [hdot]
    nlinarith [mul_pos hrow (sub_pos.mpr hc)]
  refine ⟨?_, ?_, ?_⟩
  · unfold regionLinMean
    exact Real.exp_lt_exp.mpr (by linarith)
  · unfold regionExpitMean
    exact expit_lt_expit (by linarith)
  · intro hb hd
    constructor
    · simp [regionLinMean, hb, hd, Real.exp_log hG]
    · simp [regionExpitMean, hb, hd, expit_logit hD0 hD1]

/-- Witness for `hier_prior_mean_props`: base estimates 3 and 1/2, one
covariate equal to 1, coefficient raised from 0 to 1. -/
theorem hier_prior_mean_props_witness :
    regionLinMean 3 0 [1] [0] < regionLinMean 3 0 [1] ([0].set 0 1) :=
  (hier_prior_mean_props 3 (1/2) 0 [1] [0] 0 1 (by norm_num) (by norm_num)
    (by norm_num) (by norm_num) (by norm_num)
    (by simp) (by simp)).1

end

end Covid
